import Mathlib

/-!
Shallow embedding of `doshmon.py` (the Doshmon reconciler) in Lean 4,
together with theorems settling the frozen claims about it.

Modelling conventions, used throughout:

* Python strings are embedded as `List Char` (`Str`); only the ASCII
  behaviour of `str.lower` is modelled, which covers every string the
  program manipulates (month names, "Backlog", section titles, `£`).
* Python floats are embedded as exact rationals (`ℚ`).  Every numeral the
  program parses is a finite decimal, and the reference values in the
  spec are stated as decimals, so the IEEE-754 rounding of CPython is
  idealised away.  `float(...)` applied to a non-numeral raises
  `ValueError`; this is embedded as `Except`/`Option` failure.
* `random_uuid()` (a fresh `uuid4` string per call) is embedded as a
  deterministic counter `gen : Nat` threaded through the functions, each
  call yielding `uuid gen` and bumping the counter.  The only property
  the program relies on is freshness/distinctness, which the counter
  preserves.
* `datetime.now()` is embedded as an explicit parameter `now : Date`
  (month and year are all the program reads from it); one reconciliation
  pass sees a single fixed `now`, as in the claims.
* Python runtime errors that the source actually raises (`AttributeError`
  on `section.name` where `section` is a dict, missing methods,
  `ValueError` from `float`) are embedded as `Except PyErr` results.
-/

set_option maxRecDepth 10000

namespace Doshmon

/-- Strings of the embedded program: lists of characters. -/
abbrev Str := List Char

/-- ASCII case folding of one character, modelling `str.lower` on the
ASCII strings the program uses. -/
def lowerChar (c : Char) : Char :=
  if 'A' ≤ c ∧ c ≤ 'Z' then Char.ofNat (c.toNat + 32) else c

/-- `s.lower()` on ASCII strings. -/
def pyLower (s : Str) : Str := s.map lowerChar

/-- The whitespace characters `str.split()` splits on. -/
def isPySpace (c : Char) : Bool :=
  c == ' ' || c == '\t' || c == '\n' || c == '\x0d' || c == '\x0b' || c == '\x0c'

/-- Accumulator-based splitter; `acc` holds the current word reversed. -/
def pySplitAux : List Char → List Char → List (List Char)
  | [], acc => if acc.isEmpty then [] else [acc.reverse]
  | c :: cs, acc =>
    if isPySpace c then
      if acc.isEmpty then pySplitAux cs [] else acc.reverse :: pySplitAux cs []
    else pySplitAux cs (c :: acc)

/-- `s.split()`: split on runs of whitespace, discarding empty words. -/
def pySplit (s : Str) : List Str := pySplitAux s []

/-- `s.replace(old, new)` for a single-character `old` (the only form the
program uses, in the overspend-marker substitution). -/
def pyReplace : Str → Char → Str → Str
  | [], _, _ => []
  | c :: cs, o, r => (if c = o then r else [c]) ++ pyReplace cs o r

/-- Characters kept by `re.sub(r'[^a-zA-Z0-9.£ ]+', '', ...)`. -/
def keepChar (c : Char) : Bool :=
  ('a' ≤ c && c ≤ 'z') || ('A' ≤ c && c ≤ 'Z') || ('0' ≤ c && c ≤ '9') ||
    c == '.' || c == '£' || c == ' '

/-- The character-stripping step of `_get_total_cost`:
`re.sub(r'[^a-zA-Z0-9.£ ]+', '', content)`. -/
def cleanContent (s : Str) : Str := s.filter keepChar

/-- Decimal digit test. -/
def isDigitChar (c : Char) : Bool := '0' ≤ c && c ≤ '9'

/-- Value of a list of decimal digit characters (most significant first). -/
def digitsVal (l : List Char) : Nat :=
  l.foldl (fun a c => 10 * a + (c.toNat - 48)) 0

/-- `float(s)` restricted to the token alphabet that survives
`cleanContent` (letters, digits, `.`, `£`): accepts a finite decimal
numeral — digits with at most one `.` and at least one digit — and
rejects everything else with `none` (CPython raises `ValueError`).
The exotic spellings `float` also accepts (`inf`, `nan`, exponents)
cannot plausibly occur in task contents and are not modelled. -/
def parseDec (s : Str) : Option ℚ :=
  if s.all (fun c => isDigitChar c || c == '.') && s.any isDigitChar &&
      s.count '.' ≤ 1 then
    let ip := s.takeWhile (fun c => c ≠ '.')
    let fp := (s.dropWhile (fun c => c ≠ '.')).drop 1
    some (mkRat (digitsVal ip * 10 ^ fp.length + digitsVal fp) (10 ^ fp.length))
  else none

/-- Rational addition, spelled with `mkRat` so that the kernel can
evaluate it on concrete inputs; equal to `+` (`Rat.add_def'`). -/
def ratAdd (a b : ℚ) : ℚ :=
  mkRat (a.num * b.den + b.num * a.den) (a.den * b.den)

/-- A Python number as the program distinguishes them: the running total
of `_get_total_cost` starts as the int literal `0` and becomes a float as
soon as a parsed cost is added; ints and floats print differently. -/
inductive PyNum where
  | pint (n : Int)
  | pfloat (q : ℚ)
deriving DecidableEq

/-- Python `+` on the numbers the program adds. -/
def PyNum.add : PyNum → PyNum → PyNum
  | .pint a, .pint b => .pint (a + b)
  | .pint a, .pfloat q => .pfloat (ratAdd (mkRat a 1) q)
  | .pfloat q, .pint a => .pfloat (ratAdd q (mkRat a 1))
  | .pfloat p, .pfloat q => .pfloat (ratAdd p q)

/-- Numeric value of a `PyNum`, for comparisons such as
`cost > MONTHLY_BUDGET`. -/
def PyNum.toRat : PyNum → ℚ
  | .pint n => mkRat n 1
  | .pfloat q => q

/-- Decimal rendering of a natural number. -/
def natRepr (n : Nat) : Str := (Nat.repr n).toList

/-- Decimal rendering of an integer (`str(i)` on ints). -/
def intRepr : Int → Str
  | .ofNat m => natRepr m
  | .negSucc m => '-' :: natRepr (m + 1)

/-- Fractional decimal digits of `num / den`, with fuel; terminates in
`≤ fuel` digits or when the remainder hits zero. -/
def fracDigits : Nat → Nat → Nat → Str
  | 0, _, _ => []
  | fuel + 1, num, den =>
    if num = 0 then []
    else Nat.digitChar (num * 10 / den) :: fracDigits fuel (num * 10 % den) den

/-- `str(x)` for a Python float, on the exact finite-decimal values the
program produces (for those, CPython's shortest-roundtrip repr prints the
decimal expansion, with a trailing `.0` for integral values). -/
def floatRepr (q : ℚ) : Str :=
  let sign : Str := if q.num < 0 then ['-'] else []
  let n := q.num.natAbs
  sign ++ natRepr (n / q.den) ++ '.' ::
    (if n % q.den = 0 then ['0'] else fracDigits 30 (n % q.den) q.den)

/-- `str(x)` / f-string interpolation of a `PyNum`. -/
def PyNum.render : PyNum → Str
  | .pint n => intRepr n
  | .pfloat q => floatRepr q

/-- `random_uuid()` embedded as a deterministic fresh-name supply:
the `n`-th call returns `uuid n`. -/
def uuid (n : Nat) : Str := 'u' :: natRepr n

/-- The month and year of a `datetime`; the program reads nothing else
from the dates it builds (`day` is always 1). -/
structure Date where
  month : Nat
  year : Nat
deriving DecidableEq

/-- `%B`: the full month name. -/
def monthName (m : Nat) : Str :=
  (match m with
    | 1 => "January"
    | 2 => "February"
    | 3 => "March"
    | 4 => "April"
    | 5 => "May"
    | 6 => "June"
    | 7 => "July"
    | 8 => "August"
    | 9 => "September"
    | 10 => "October"
    | 11 => "November"
    | 12 => "December"
    | _ => "").toList

/-- `dt.strftime('%B %Y')`, the "Month Year" label (years of the era the
program runs in have four digits, so `%Y` needs no zero padding). -/
def renderLabel (d : Date) : Str := monthName d.month ++ ' ' :: natRepr d.year

/-- Boolean comparison of dates with equal day: `datetime` ordering
restricted to the `(year, month)` pairs the program sorts. -/
def dateLeB (a b : Date) : Bool :=
  a.year < b.year || (a.year == b.year && a.month ≤ b.month)

/-- The propositional form of `dateLeB`, used for sorting. -/
def dateLe (a b : Date) : Prop := dateLeB a b = true

instance : DecidableRel dateLe := fun a b => instDecidableEqBool (dateLeB a b) true

instance : IsTotal Date dateLe := by
  constructor
  intro a b
  simp only [dateLe, dateLeB, Bool.or_eq_true, decide_eq_true_eq, Bool.and_eq_true, beq_iff_eq]
  omega

instance : IsTrans Date dateLe := by
  constructor
  intro a b c
  simp only [dateLe, dateLeB, Bool.or_eq_true, decide_eq_true_eq, Bool.and_eq_true, beq_iff_eq]
  omega

/-- Strict `datetime` ordering on `(year, month)` pairs. -/
def dateLt (a b : Date) : Prop :=
  a.year < b.year ∨ (a.year = b.year ∧ a.month < b.month)

/-- `MONTHLY_BUDGET = 500`, a Python int. -/
def MONTHLY_BUDGET : Int := 500

/-- A section record as the reconciler reads and writes it: the fields of
the Todoist section dict that the core logic touches (`id`, `name`,
`project_id`). -/
structure DSection where
  id : Str
  name : Str
  project_id : Str
deriving DecidableEq

/-- A task (Todoist item) as the core logic reads it: `id`, free-text
`content`, owning `section_id` (nullable in Todoist), the completion flag
`checked` and the soft-deletion flag `is_deleted`. -/
structure DTask where
  id : Str
  content : Str
  section_id : Option Str
  checked : Bool
  is_deleted : Bool
deriving DecidableEq

/-- The mutation-intent dicts built by the `Todoist` command helpers.
Each carries the `uuid` operation identifier generated inside the helper.
`sectionAdd` additionally carries the `temp_id` passed by the caller.
(The source has no `archive_section` command builder — `Todoist` defines
only these four — so no archive intent can ever be constructed.) -/
inductive Cmd where
  | sectionAdd (tempId : Str) (opUuid : Str) (name : Str) (projectId : Str)
  | itemMove (opUuid : Str) (taskId : Str) (sectionId : Option Str)
  | sectionReorder (opUuid : Str) (orderMap : List (Str × Nat))
  | sectionUpdate (opUuid : Str) (id : Str) (name : Str)
deriving DecidableEq

/-- The Python runtime errors the reconciler actually raises. -/
inductive PyErr where
  | attributeError (attr : Str)
  | valueError (msg : Str)
deriving DecidableEq

/-- Decidable equality for `Except` results, so concrete runs of the
embedded functions can be checked by `decide`. -/
instance instDecEqExcept {ε α : Type} [DecidableEq ε] [DecidableEq α] :
    DecidableEq (Except ε α) := fun x y =>
  match x, y with
  | .ok a, .ok b =>
    if h : a = b then .isTrue (by rw [h])
    else .isFalse (by intro hc; cases hc; exact h rfl)
  | .ok _, .error _ => .isFalse (by intro h; cases h)
  | .error _, .ok _ => .isFalse (by intro h; cases h)
  | .error e, .error f =>
    if h : e = f then .isTrue (by rw [h])
    else .isFalse (by intro hc; cases hc; exact h rfl)

/-- The date list `expected_dts` that `_get_expected_sections` builds
before sorting: for each calendar month 1..12, the current month keeps
the current year, earlier months get the next year, later months keep
the current year (`day` is always 1 and never read again). -/
def expectedDts (now : Date) : List Date :=
  (List.range' 1 12).map fun month =>
    if month = now.month then ⟨month, now.year⟩
    else if month < now.month then ⟨month, now.year + 1⟩
    else ⟨month, now.year⟩

/-- `expected_dts.sort()`: ascending `datetime` order, i.e. lexicographic
on `(year, month)`. -/
def sortedDts (now : Date) : List Date :=
  (expectedDts now).insertionSort dateLe

/-- `_get_expected_sections`: render the sorted dates as "Month Year"
labels and splice `'Backlog'` in behind the leading label
(`expected[0:1] + ['Backlog'] + expected[1:]`). -/
def getExpectedSections (now : Date) : List Str :=
  let expected := (sortedDts now).map renderLabel
  expected.take 1 ++ ["Backlog".toList] ++ expected.drop 1

/-- `section['name'].lower().startswith(label.lower())`: the
case-insensitive prefix match used at every comparison site. -/
def matchesLabel (label : Str) (s : DSection) : Bool :=
  (pyLower label).isPrefixOf (pyLower s.name)

/-- `_get_current_section_id`: the id of the first section whose name
case-insensitively starts with the "Month Year" rendering of `now`, or
`None`. -/
def currentSectionId (now : Date) (sections : List DSection) : Option Str :=
  ((sections.find? (matchesLabel (renderLabel now))).map DSection.id)

/-- Loop body of `add_missing_sections`: walks the expected labels and,
for each label no current section matches, emits a `section_add` intent
and appends a synthetic record to the working set.  Note the uuid
consumption of the source, line by line: `temp_id = random_uuid()` (used
for the appended record), then `temp_id=random_uuid()` in the
`add_section` call (a fresh, different uuid), then `random_uuid()` for
the command's own `uuid` field inside `add_section`. -/
def addMissingSectionsAux (pid : Str) :
    List Str → Nat → List DSection → Nat × List Cmd × List DSection
  | [], gen, sections => (gen, [], sections)
  | label :: rest, gen, sections =>
    if sections.any (matchesLabel label) then
      addMissingSectionsAux pid rest gen sections
    else
      let name := label ++ " (£0.00 / £".toList ++ intRepr MONTHLY_BUDGET ++ ")".toList
      let tempId := uuid gen
      let cmd := Cmd.sectionAdd (uuid (gen + 1)) (uuid (gen + 2)) name pid
      let out := addMissingSectionsAux pid rest (gen + 3) (sections ++ [⟨tempId, name, pid⟩])
      (out.1, cmd :: out.2.1, out.2.2)

/-- `add_missing_sections`: returns the next uuid counter, the emitted
intents, and the mutated working set of sections. -/
def addMissingSections (now : Date) (pid : Str) (gen : Nat)
    (sections : List DSection) : Nat × List Cmd × List DSection :=
  addMissingSectionsAux pid (getExpectedSections now) gen sections

/-- A section is unwanted when its name matches no expected label. -/
def isUnwanted (expected : List Str) (s : DSection) : Bool :=
  !(expected.any fun e => matchesLabel e s)

/-- Loop of `archive_unwanted_sections`.  For each unwanted section the
source first builds `tasks_to_move` (a pure list comprehension), then
executes `logger.info(f'... {section.name} ...')` — but `section` is a
dict, so attribute access raises `AttributeError` before any intent for
that section is appended.  (Were that line fixed, the loop would next
crash on `self.move_task_to_section` — `Doshmon` has no such method, it
lives on `self.api` — and then on the nonexistent
`self.api.archive_section`.)  Hence the loop yields `[]` when every
section is wanted and raises at the first unwanted section. -/
def archiveUnwantedSectionsLoop (expected : List Str) (tasks : List DTask) :
    List DSection → Except PyErr (List Cmd)
  | [] => .ok []
  | s :: rest =>
    if isUnwanted expected s then
      let _tasksToMove := tasks.filter fun t =>
        t.section_id == some s.id && !t.checked && !t.is_deleted
      .error (.attributeError "name".toList)
    else archiveUnwantedSectionsLoop expected tasks rest

/-- `archive_unwanted_sections`: computes the current-month section id,
then runs the loop; the uuid counter is returned unchanged because no
command builder is ever reached. -/
def archiveUnwantedSections (now : Date) (gen : Nat) (sections : List DSection)
    (tasks : List DTask) : Except PyErr (Nat × List Cmd) :=
  let _currentSectionId := currentSectionId now sections
  (archiveUnwantedSectionsLoop (getExpectedSections now) tasks sections).map
    fun cmds => (gen, cmds)

/-- `set_section_order`: unconditionally emits one `section_reorder`
intent pairing every working-set section id with its 1-based position. -/
def setSectionOrder (gen : Nat) (sections : List DSection) : Nat × List Cmd :=
  (gen + 1,
    [Cmd.sectionReorder (uuid gen)
      ((sections.enum.map fun p => (p.2.id, p.1 + 1)))])

/-- Inner loop of `_get_total_cost` for one task: strip characters, split
into tokens, and take the first token starting with `£`; its remainder is
fed to `float`.  Returns the parsed contribution (`none` when no token
starts with `£`), or a `ValueError`. -/
def taskCost (t : DTask) : Except PyErr (Option ℚ) :=
  match (pySplit (cleanContent t.content)).find? (fun w => w.take 1 == ['£']) with
  | none => .ok none
  | some w =>
    match parseDec (w.drop 1) with
    | none => .error (.valueError "could not convert string to float".toList)
    | some q => .ok (some q)

/-- Accumulating loop of `_get_total_cost` over the task list. -/
def getTotalCostAux (acc : PyNum) : List DTask → Except PyErr PyNum
  | [] => .ok acc
  | t :: ts =>
    match taskCost t with
    | .error e => .error e
    | .ok none => getTotalCostAux acc ts
    | .ok (some q) => getTotalCostAux (acc.add (.pfloat q)) ts

/-- `_get_total_cost`: the running total starts as the int `0`. -/
def getTotalCost (tasks : List DTask) : Except PyErr PyNum :=
  getTotalCostAux (.pint 0) tasks

/-- f-string `'{" ".join(name.split()[:2])}'`: the first two
whitespace-separated words of a name, joined by one space. -/
def firstTwoWords (name : Str) : Str :=
  List.intercalate [' '] ((pySplit name).take 2)

/-- Per-section expected title of `set_section_titles`: `"Backlog"` for
Backlog-prefixed names (case-sensitive `startswith`), otherwise the first
two words of the current name plus the `(£cost / £budget)` suffix, with
every `(` and `)` replaced by the `!!!` markers when the section is the
current-month section and its cost exceeds the budget. -/
def expectedTitle (now : Date) (sections : List DSection) (tasks : List DTask)
    (s : DSection) : Except PyErr Str :=
  if "Backlog".toList.isPrefixOf s.name then .ok "Backlog".toList
  else
    match getTotalCost (tasks.filter fun t => t.section_id == some s.id) with
    | .error e => .error e
    | .ok cost =>
      let base := firstTwoWords s.name ++ " (£".toList ++ cost.render ++
        " / £".toList ++ intRepr MONTHLY_BUDGET ++ ")".toList
      if currentSectionId now sections = some s.id ∧ mkRat MONTHLY_BUDGET 1 < cost.toRat then
        .ok (pyReplace (pyReplace base '(' "!!! ".toList) ')' " !!!".toList)
      else .ok base

/-- Loop of `set_section_titles`: one `section_update` intent (consuming
one uuid) per section whose expected title differs from its name. -/
def setSectionTitlesAux (now : Date) (sections : List DSection)
    (tasks : List DTask) : Nat → List DSection → Except PyErr (Nat × List Cmd)
  | gen, [] => .ok (gen, [])
  | gen, s :: rest =>
    match expectedTitle now sections tasks s with
    | .error e => .error e
    | .ok title =>
      if title ≠ s.name then
        match setSectionTitlesAux now sections tasks (gen + 1) rest with
        | .error e => .error e
        | .ok (g, cmds) => .ok (g, Cmd.sectionUpdate (uuid gen) s.id title :: cmds)
      else setSectionTitlesAux now sections tasks gen rest

/-- `set_section_titles`. -/
def setSectionTitles (now : Date) (gen : Nat) (sections : List DSection)
    (tasks : List DTask) : Except PyErr (Nat × List Cmd) :=
  setSectionTitlesAux now sections tasks gen sections

/-- The intent-computing part of `do_housekeeping`: the four passes run
in order over the shared working set (`add_missing_sections` mutates the
section list in place; the later passes see the appended records; the
task list is never mutated — the relocation "assignment" in the source is
a `==` comparison). -/
def doshmonCompute (now : Date) (pid : Str) (gen : Nat)
    (sections : List DSection) (tasks : List DTask) :
    Except PyErr (Nat × List Cmd) :=
  let a := addMissingSections now pid gen sections
  match archiveUnwantedSections now a.1 a.2.2 tasks with
  | .error e => .error e
  | .ok (g2, c2) =>
    let o := setSectionOrder g2 a.2.2
    match setSectionTitles now o.1 a.2.2 tasks with
    | .error e => .error e
    | .ok (g4, c4) => .ok (g4, a.2.1 ++ c2 ++ o.2 ++ c4)

/-- Modelled from the spec: the Remote State Gateway's application of one
mutation intent (§3, §6), which is external to the core (the Todoist
server).  `section_add` creates a section reachable under the intent's
`temp_id`; `item_move` rewrites the task's owning-section reference;
`section_update` renames the identified section; a command naming an
unknown id changes nothing (the sync API reports a per-command error that
`do_update` never inspects); `section_reorder` only rewrites ordinal
positions, which the snapshot encodes as list order, so re-applying the
working-set order is the identity here. -/
def applyCmd (st : List DSection × List DTask) : Cmd → List DSection × List DTask
  | .sectionAdd tempId _ name pid => (st.1 ++ [⟨tempId, name, pid⟩], st.2)
  | .itemMove _ taskId sid =>
    (st.1, st.2.map fun t => if t.id = taskId then { t with section_id := sid } else t)
  | .sectionReorder _ _ => st
  | .sectionUpdate _ sid name =>
    (st.1.map fun s => if s.id = sid then { s with name := name } else s, st.2)

/-- Modelled from the spec: applying a batch of intents in emission
order (§3: "they must be applied in the sequence the Reconciler emitted
them"). -/
def applyCmds (st : List DSection × List DTask) (cmds : List Cmd) :
    List DSection × List DTask :=
  cmds.foldl applyCmd st

/-- Two consecutive reconciliation passes at the same date: run the full
computation, apply its batch to the snapshot, run the computation again
on the result, and return the second batch. -/
def secondPassCmds (now : Date) (pid : Str) (gen : Nat)
    (sections : List DSection) (tasks : List DTask) : Except PyErr (List Cmd) :=
  match doshmonCompute now pid gen sections tasks with
  | .error e => .error e
  | .ok (g1, cmds1) =>
    let st2 := applyCmds (sections, tasks) cmds1
    match doshmonCompute now pid g1 st2.1 st2.2 with
    | .error e => .error e
    | .ok (_, cmds2) => .ok cmds2

/-- Number of `section_update` (rename) intents in a batch. -/
def countRenames (cmds : List Cmd) : Nat :=
  (cmds.filter fun c => match c with | .sectionUpdate _ _ _ => true | _ => false).length

/-- Number of `section_add` (create) intents in a batch. -/
def countCreates (cmds : List Cmd) : Nat :=
  (cmds.filter fun c => match c with | .sectionAdd _ _ _ _ => true | _ => false).length

/-- Shorthand for a concrete section record in project `p1`. -/
def mkSection (i n : String) : DSection := ⟨i.toList, n.toList, "p1".toList⟩

/-- Shorthand for a concrete task record. -/
def mkTask (i c : String) (sid : Option String) (chk del : Bool) : DTask :=
  ⟨i.toList, c.toList, sid.map String.toList, chk, del⟩

/-- A concrete snapshot for the idempotence analysis: all thirteen
canonical sections for March 2025 exist; the current-month section is
named "March 2025(x" (a legal match for the canonical label, whose
second word contains a parenthesis) and holds one £600 task; every other
section already carries its fixed-point title. -/
def idemSections : List DSection :=
  [mkSection "s1" "March 2025(x", mkSection "s2" "Backlog",
   mkSection "s3" "April 2025 (£0 / £500)", mkSection "s4" "May 2025 (£0 / £500)",
   mkSection "s5" "June 2025 (£0 / £500)", mkSection "s6" "July 2025 (£0 / £500)",
   mkSection "s7" "August 2025 (£0 / £500)", mkSection "s8" "September 2025 (£0 / £500)",
   mkSection "s9" "October 2025 (£0 / £500)", mkSection "s10" "November 2025 (£0 / £500)",
   mkSection "s11" "December 2025 (£0 / £500)", mkSection "s12" "January 2026 (£0 / £500)",
   mkSection "s13" "February 2026 (£0 / £500)"]

/-- The single task of the idempotence snapshot. -/
def idemTasks : List DTask := [mkTask "t1" "£600" (some "s1") false false]

/-!  Theorems.  First general-purpose lemmas about the schedule builder,
then one theorem (plus witness or counterexample) per claim. -/

theorem expectedDts_month_map (now : Date) :
    (expectedDts now).map Date.month = List.range' 1 12 := by
  unfold expectedDts
  rw [List.map_map]
  conv_rhs => rw [← List.map_id (List.range' 1 12)]
  apply List.map_congr_left
  intro m _
  simp only [Function.comp_apply, List.map_id]
  split_ifs <;> rfl

theorem expectedDts_nodup (now : Date) : (expectedDts now).Nodup :=
  List.Nodup.of_map Date.month
    (by rw [expectedDts_month_map]; exact List.nodup_range' 1 12)

theorem expectedDts_length (now : Date) : (expectedDts now).length = 12 := by
  have h := congrArg List.length (expectedDts_month_map now)
  simpa using h

theorem mem_expectedDts {now : Date} {d : Date} :
    d ∈ expectedDts now ↔ ∃ m, 1 ≤ m ∧ m < 13 ∧
      d = (if m = now.month then (⟨m, now.year⟩ : Date)
           else if m < now.month then ⟨m, now.year + 1⟩ else ⟨m, now.year⟩) := by
  unfold expectedDts
  simp only [List.mem_map, List.mem_range'_1]
  constructor
  · rintro ⟨m, hm, rfl⟩
    exact ⟨m, hm.1, by omega, rfl⟩
  · rintro ⟨m, h1, h2, rfl⟩
    exact ⟨m, ⟨h1, by omega⟩, rfl⟩

theorem current_mem_expectedDts {now : Date} (h1 : 1 ≤ now.month) (h2 : now.month ≤ 12) :
    (⟨now.month, now.year⟩ : Date) ∈ expectedDts now := by
  rw [mem_expectedDts]
  exact ⟨now.month, h1, by omega, by simp⟩

theorem current_lt_of_mem {now : Date} {d : Date} (hd : d ∈ expectedDts now)
    (hne : d ≠ ⟨now.month, now.year⟩) : dateLt ⟨now.month, now.year⟩ d := by
  rw [mem_expectedDts] at hd
  obtain ⟨m, h1, h2, rfl⟩ := hd
  by_cases hm : m = now.month
  · subst hm; simp at hne
  · rw [if_neg hm]
    by_cases hlt : m < now.month
    · rw [if_pos hlt]; exact Or.inl (by show now.year < now.year + 1; omega)
    · rw [if_neg hlt]; exact Or.inr ⟨rfl, by show now.month < m; omega⟩

theorem sortedDts_perm (now : Date) : (sortedDts now).Perm (expectedDts now) :=
  List.perm_insertionSort dateLe _

theorem sortedDts_sorted (now : Date) : (sortedDts now).Sorted dateLe :=
  List.sorted_insertionSort dateLe _

theorem sortedDts_nodup (now : Date) : (sortedDts now).Nodup :=
  ((sortedDts_perm now).nodup_iff).mpr (expectedDts_nodup now)

theorem dateLe_ne_lt {a b : Date} (hle : dateLe a b) (hne : a ≠ b) : dateLt a b := by
  rcases a with ⟨am, ay⟩; rcases b with ⟨bm, byr⟩
  simp only [dateLe, dateLeB, Bool.or_eq_true, decide_eq_true_eq, Bool.and_eq_true,
    beq_iff_eq] at hle
  simp only [ne_eq, Date.mk.injEq, not_and] at hne
  simp only [dateLt]
  omega

theorem dateLt_le_absurd {a b : Date} (hlt : dateLt a b) (hle : dateLe b a) : False := by
  rcases a with ⟨am, ay⟩; rcases b with ⟨bm, byr⟩
  simp only [dateLe, dateLeB, Bool.or_eq_true, decide_eq_true_eq, Bool.and_eq_true,
    beq_iff_eq] at hle
  simp only [dateLt] at hlt
  omega

theorem sortedDts_pairwise_lt (now : Date) : (sortedDts now).Pairwise dateLt :=
  (sortedDts_sorted now).imp₂ (fun _ _ hle hne => dateLe_ne_lt hle hne) (sortedDts_nodup now)

theorem sortedDts_eq_cons (now : Date) (h1 : 1 ≤ now.month) (h2 : now.month ≤ 12) :
    ∃ rest, sortedDts now = (⟨now.month, now.year⟩ : Date) :: rest ∧ rest.length = 11 := by
  have hlen : (sortedDts now).length = 12 := by
    rw [(sortedDts_perm now).length_eq, expectedDts_length]
  obtain ⟨h, t, ht⟩ : ∃ h t, sortedDts now = h :: t := by
    cases hl : sortedDts now with
    | nil => rw [hl] at hlen; simp at hlen
    | cons a l => exact ⟨a, l, rfl⟩
  have hmem : h ∈ expectedDts now :=
    (sortedDts_perm now).subset (ht ▸ List.mem_cons_self h t)
  have hcur : (⟨now.month, now.year⟩ : Date) ∈ sortedDts now :=
    (sortedDts_perm now).symm.subset (current_mem_expectedDts h1 h2)
  by_cases hh : h = ⟨now.month, now.year⟩
  · subst hh
    refine ⟨t, ht, ?_⟩
    rw [ht] at hlen
    simpa using hlen
  · exfalso
    have hlt : dateLt ⟨now.month, now.year⟩ h := current_lt_of_mem hmem hh
    rw [ht] at hcur
    rcases List.mem_cons.mp hcur with hc | hc
    · exact hh hc.symm
    · exact dateLt_le_absurd hlt (List.rel_of_sorted_cons (ht ▸ sortedDts_sorted now) _ hc)

theorem getExpectedSections_eq (now : Date) (h1 : 1 ≤ now.month) (h2 : now.month ≤ 12) :
    ∃ rest, getExpectedSections now =
      renderLabel ⟨now.month, now.year⟩ :: "Backlog".toList :: rest ∧ rest.length = 11 := by
  obtain ⟨t, ht, hlen⟩ := sortedDts_eq_cons now h1 h2
  refine ⟨t.map renderLabel, ?_, by simpa⟩
  unfold getExpectedSections
  rw [ht]
  simp

theorem monthName_no_space {m : Nat} (h1 : 1 ≤ m) (h2 : m ≤ 12) :
    ∀ c ∈ monthName m, c ≠ ' ' := by
  interval_cases m <;> decide

theorem takeWhile_append_space {l r : List Char} (h : ∀ c ∈ l, c ≠ ' ') :
    (l ++ ' ' :: r).takeWhile (fun c => c != ' ') = l := by
  induction l with
  | nil => simp
  | cons a as ih =>
    have ha : a ≠ ' ' := h a (List.mem_cons_self a as)
    simp only [List.cons_append, List.takeWhile_cons]
    simp [ha, ih fun c hc => h c (List.mem_cons_of_mem a hc)]

theorem monthName_inj {m₁ m₂ : Nat} (h1 : 1 ≤ m₁) (h2 : m₁ ≤ 12) (h3 : 1 ≤ m₂)
    (h4 : m₂ ≤ 12) (h : monthName m₁ = monthName m₂) : m₁ = m₂ := by
  interval_cases m₁ <;> interval_cases m₂ <;> revert h <;> decide

theorem renderLabel_month_inj {d₁ d₂ : Date} (h1 : 1 ≤ d₁.month) (h2 : d₁.month ≤ 12)
    (h3 : 1 ≤ d₂.month) (h4 : d₂.month ≤ 12) (h : renderLabel d₁ = renderLabel d₂) :
    d₁.month = d₂.month := by
  have h' := congrArg (List.takeWhile (fun c => c != ' ')) h
  rw [renderLabel, renderLabel, takeWhile_append_space (monthName_no_space h1 h2),
    takeWhile_append_space (monthName_no_space h3 h4)] at h'
  exact monthName_inj h1 h2 h3 h4 h'

theorem backlog_ne_renderLabel (d : Date) : "Backlog".toList ≠ renderLabel d := by
  intro h
  have hsp : ' ' ∈ "Backlog".toList := by
    rw [h, renderLabel]
    exact List.mem_append_right _ (List.mem_cons_self _ _)
  revert hsp; decide

theorem expectedDts_month_bounds {now : Date} {d : Date} (hd : d ∈ expectedDts now) :
    1 ≤ d.month ∧ d.month ≤ 12 := by
  rw [mem_expectedDts] at hd
  obtain ⟨m, hm1, hm2, rfl⟩ := hd
  split_ifs <;> dsimp only <;> omega

theorem expectedDts_month_inj {now : Date} {d₁ d₂ : Date} (hd₁ : d₁ ∈ expectedDts now)
    (hd₂ : d₂ ∈ expectedDts now) (h : d₁.month = d₂.month) : d₁ = d₂ :=
  List.inj_on_of_nodup_map
    (by rw [expectedDts_month_map]; exact List.nodup_range' 1 12) hd₁ hd₂ h

/-- C3: for every current date, each month 1..12 is assigned the year
required by the claim (current year at the current month, next year for
earlier months, current year for later months); the 12 sorted pairs are
strictly increasing in `(year, month)` order; and the rendered sequence
is exactly the current month's "Month Year" label, then "Backlog", then
the remaining 11 labels (length 13, element 0 re-derivable from `now`). -/
theorem c3_canonical_schedule (now : Date) (h1 : 1 ≤ now.month) (h2 : now.month ≤ 12) :
    (∀ m, 1 ≤ m → m ≤ 12 →
      (⟨m, if m = now.month then now.year
           else if m < now.month then now.year + 1 else now.year⟩ : Date) ∈ expectedDts now)
    ∧ (expectedDts now).length = 12
    ∧ (sortedDts now).Pairwise dateLt
    ∧ ∃ rest, getExpectedSections now =
        renderLabel ⟨now.month, now.year⟩ :: "Backlog".toList :: rest ∧ rest.length = 11 := by
  refine ⟨?_, expectedDts_length now, sortedDts_pairwise_lt now,
    getExpectedSections_eq now h1 h2⟩
  intro m hm1 hm2
  rw [mem_expectedDts]
  exact ⟨m, hm1, by omega, by split_ifs <;> rfl⟩

/-- Witness for C3 at March 2025. -/
theorem c3_canonical_schedule_witness :
    (1 ≤ (⟨3, 2025⟩ : Date).month ∧ (⟨3, 2025⟩ : Date).month ≤ 12) ∧
    ((∀ m, 1 ≤ m → m ≤ 12 →
        (⟨m, if m = (⟨3, 2025⟩ : Date).month then (⟨3, 2025⟩ : Date).year
             else if m < (⟨3, 2025⟩ : Date).month then (⟨3, 2025⟩ : Date).year + 1
             else (⟨3, 2025⟩ : Date).year⟩ : Date) ∈ expectedDts ⟨3, 2025⟩)
      ∧ (expectedDts ⟨3, 2025⟩).length = 12
      ∧ (sortedDts ⟨3, 2025⟩).Pairwise dateLt
      ∧ ∃ rest, getExpectedSections ⟨3, 2025⟩ =
          renderLabel ⟨(⟨3, 2025⟩ : Date).month, (⟨3, 2025⟩ : Date).year⟩ ::
            "Backlog".toList :: rest ∧ rest.length = 11) :=
  ⟨⟨by decide, by decide⟩, c3_canonical_schedule ⟨3, 2025⟩ (by decide) (by decide)⟩

/-- C4 counterexample: at March 2025 the canonical sequence does not have
14 labels and the current month's label does not occur twice — the claim
is false of the code. -/
theorem c4_fourteen_labels_counterexample :
    (getExpectedSections ⟨3, 2025⟩).length ≠ 14 ∧
    List.count (renderLabel ⟨3, 2025⟩) (getExpectedSections ⟨3, 2025⟩) ≠ 2 := by decide

/-- C4 amended: for every current date, the canonical schedule is an
ordered sequence of 13 labels in which the current month's label is not
duplicated: it occurs exactly once, as the first element (there is no
second occurrence at year wrap). -/
theorem c4_amended_no_duplicate (now : Date) (h1 : 1 ≤ now.month) (h2 : now.month ≤ 12) :
    (getExpectedSections now).length = 13 ∧
    (getExpectedSections now).count (renderLabel ⟨now.month, now.year⟩) = 1 := by
  obtain ⟨t, ht, hlen⟩ := sortedDts_eq_cons now h1 h2
  have hform : getExpectedSections now =
      renderLabel ⟨now.month, now.year⟩ :: "Backlog".toList :: t.map renderLabel := by
    unfold getExpectedSections
    rw [ht]
    simp
  constructor
  · rw [hform]
    simp only [List.length_cons, List.length_map]
    omega
  · rw [hform]
    have hnotmem : renderLabel ⟨now.month, now.year⟩ ∉ t.map renderLabel := by
      intro hmem
      obtain ⟨d, hd, hrd⟩ := List.mem_map.mp hmem
      have hdts : d ∈ expectedDts now :=
        (sortedDts_perm now).subset (ht ▸ List.mem_cons_of_mem _ hd)
      have hb := expectedDts_month_bounds hdts
      have hmeq : d.month = (⟨now.month, now.year⟩ : Date).month :=
        renderLabel_month_inj hb.1 hb.2 h1 h2 hrd
      have hdc : d = ⟨now.month, now.year⟩ :=
        expectedDts_month_inj hdts (current_mem_expectedDts h1 h2) hmeq
      have hnd := sortedDts_nodup now
      rw [ht] at hnd
      exact (List.nodup_cons.mp hnd).1 (hdc ▸ hd)
    rw [List.count_cons_self, List.count_cons_of_ne (Ne.symm (backlog_ne_renderLabel _)),
      List.count_eq_zero.mpr hnotmem]

/-- Witness for the amended C4 at March 2025. -/
theorem c4_amended_no_duplicate_witness :
    (1 ≤ (⟨3, 2025⟩ : Date).month ∧ (⟨3, 2025⟩ : Date).month ≤ 12) ∧
    ((getExpectedSections ⟨3, 2025⟩).length = 13 ∧
     (getExpectedSections ⟨3, 2025⟩).count
       (renderLabel ⟨(⟨3, 2025⟩ : Date).month, (⟨3, 2025⟩ : Date).year⟩) = 1) :=
  ⟨⟨by decide, by decide⟩, c4_amended_no_duplicate ⟨3, 2025⟩ (by decide) (by decide)⟩

/-- C1: the claim is false of the code as written — on a snapshot with an
unwanted section ("Junk drawer" matches no canonical label at March
2025) holding two incomplete, undeleted tasks and one completed task,
`archive_unwanted_sections` raises `AttributeError` (the logging line
reads `section.name` on a dict; were it fixed, `self.move_task_to_section`
and `self.api.archive_section` do not exist either), so it emits no
relocate-task and no archive-section intent at all. -/
theorem c1_archival_crashes_on_unwanted_section :
    archiveUnwantedSections ⟨3, 2025⟩ 0
      [mkSection "s1" "Junk drawer"]
      [mkTask "t1" "Buy paint £20" (some "s1") false false,
       mkTask "t2" "Fix door" (some "s1") false false,
       mkTask "t3" "Done thing" (some "s1") true false] =
    .error (.attributeError "name".toList) := by decide

/-- C9: the claim is false of the code as written — archival of an
unwanted section never completes (`AttributeError` as in C1), and even in
the intended control flow the source line `task['section_id'] ==
current_section_id` is a comparison, not an assignment, so no task's
owning-section reference is ever rewritten in the working set. -/
theorem c9_relocation_never_updates_tasks :
    archiveUnwantedSections ⟨3, 2025⟩ 0
      [mkSection "a1" "Old stuff", mkSection "a2" "March 2025 (£0 / £500)"]
      [mkTask "t1" "Call plumber £45" (some "a1") false false] =
    .error (.attributeError "name".toList) := by decide

/-- C5: the claim is false of the code as written — on an empty section
list at March 2025 the first create-section intent carries temporary id
`uuid 1` while the synthetic record appended to the working set carries
`uuid 0` (the source draws a fresh `random_uuid()` for the intent instead
of reusing `temp_id`), and the two differ. -/
theorem c5_create_temp_id_mismatch :
    ((addMissingSections ⟨3, 2025⟩ "p1".toList 0 []).2.1.head? =
      some (Cmd.sectionAdd (uuid 1) (uuid 2) "March 2025 (£0.00 / £500)".toList "p1".toList))
    ∧ ((addMissingSections ⟨3, 2025⟩ "p1".toList 0 []).2.2.head? =
      some ⟨uuid 0, "March 2025 (£0.00 / £500)".toList, "p1".toList⟩)
    ∧ uuid 1 ≠ uuid 0 := by decide

/-- C2: the claim is false of the code — on the `idemSections` snapshot
(all 13 canonical sections exist; the current-month section is named
"March 2025(x" and holds a £600 task) the first pass completes, its
intents are applied, and the second pass still emits one rename intent
(the overspend marker's `replace` rewrites the parenthesis inside the
word "2025(x", so the title never reaches the fixed point the claim
asserts); creates stay at zero. -/
theorem c2_second_pass_emits_rename :
    (secondPassCmds ⟨3, 2025⟩ "p1".toList 0 idemSections idemTasks).map countRenames =
      .ok 1 ∧
    (secondPassCmds ⟨3, 2025⟩ "p1".toList 0 idemSections idemTasks).map countRenames ≠
      .ok 0 ∧
    (secondPassCmds ⟨3, 2025⟩ "p1".toList 0 idemSections idemTasks).map countCreates =
      .ok 0 :=
  ⟨by decide, by decide, by decide⟩


theorem ratAdd_eq (a b : ℚ) : ratAdd a b = a + b := (Rat.add_def' a b).symm

theorem pyNum_add_pfloat_toRat (a : PyNum) (q : ℚ) :
    (a.add (.pfloat q)).toRat = a.toRat + q := by
  cases a <;> simp [PyNum.add, PyNum.toRat, ratAdd_eq]

theorem getTotalCostAux_sum (f : DTask → Option ℚ) :
    ∀ (ts : List DTask) (acc : PyNum), (∀ t ∈ ts, taskCost t = .ok (f t)) →
      ∃ r, getTotalCostAux acc ts = .ok r ∧
        r.toRat = acc.toRat + (ts.map fun t => (f t).getD 0).sum := by
  intro ts
  induction ts with
  | nil => intro acc _; exact ⟨acc, rfl, by simp⟩
  | cons t ts ih =>
    intro acc h
    have ht : taskCost t = .ok (f t) := h t (List.mem_cons_self _ _)
    have hrest : ∀ u ∈ ts, taskCost u = .ok (f u) :=
      fun u hu => h u (List.mem_cons_of_mem _ hu)
    cases hf : f t with
    | none =>
      obtain ⟨r, hr, hsum⟩ := ih acc hrest
      refine ⟨r, ?_, ?_⟩
      · rw [getTotalCostAux]
        rw [hf] at ht
        rw [ht]
        exact hr
      · rw [hsum]
        simp [hf]
    | some q =>
      obtain ⟨r, hr, hsum⟩ := ih (acc.add (.pfloat q)) hrest
      refine ⟨r, ?_, ?_⟩
      · rw [getTotalCostAux]
        rw [hf] at ht
        rw [ht]
        exact hr
      · rw [hsum, pyNum_add_pfloat_toRat]
        simp [hf]
        ring

/-- C6: the four reference cost examples hold — "Buy milk £3.50 and
eggs" totals 3.50, "No price here" totals the int 0, "£10 £20" totals 10
(only the first £-token counts), "Rent: £450.00!!" totals 450.00 after
character stripping — and over several tasks the total's value is the sum
of each task's at-most-one contribution (first matching token only,
tasks without a £-token contributing zero). -/
theorem c6_total_cost :
    getTotalCost [mkTask "t1" "Buy milk £3.50 and eggs" none false false] =
      .ok (.pfloat (7 / 2 : ℚ))
    ∧ getTotalCost [mkTask "t2" "No price here" none false false] = .ok (.pint 0)
    ∧ getTotalCost [mkTask "t3" "£10 £20" none false false] = .ok (.pfloat (10 : ℚ))
    ∧ getTotalCost [mkTask "t4" "Rent: £450.00!!" none false false] =
      .ok (.pfloat (450 : ℚ))
    ∧ ∀ (ts : List DTask) (f : DTask → Option ℚ),
        (∀ t ∈ ts, taskCost t = .ok (f t)) →
        (getTotalCost ts).map PyNum.toRat = .ok ((ts.map fun t => (f t).getD 0).sum) := by
  refine ⟨?_, by decide, ?_, ?_, ?_⟩
  · have h : (7 / 2 : ℚ) = mkRat 7 2 := by
      rw [Rat.mkRat_eq_divInt, Rat.divInt_eq_div]; norm_num
    rw [h]; decide
  · have h : (10 : ℚ) = mkRat 10 1 := by rw [Rat.mkRat_one]; norm_num
    rw [h]; decide
  · have h : (450 : ℚ) = mkRat 450 1 := by rw [Rat.mkRat_one]; norm_num
    rw [h]; decide
  · intro ts f h
    obtain ⟨r, hr, hsum⟩ := getTotalCostAux_sum f ts (.pint 0) h
    rw [getTotalCost, hr]
    simp only [Except.map]
    rw [hsum]
    norm_num [PyNum.toRat, Rat.mkRat_one]

/-- Witness for the summation clause of C6 on a one-task list. -/
theorem c6_total_cost_witness :
    (∀ t ∈ [mkTask "t5" "£2.50 x" none false false],
        taskCost t = .ok ((fun _ => some (mkRat 5 2)) t)) ∧
    (getTotalCost [mkTask "t5" "£2.50 x" none false false]).map PyNum.toRat =
      .ok (([mkTask "t5" "£2.50 x" none false false].map
        fun t => (((fun _ => some (mkRat 5 2)) t).getD 0)).sum) :=
  ⟨by decide, c6_total_cost.2.2.2.2 _ _ (by decide)⟩

theorem getTotalCostAux_total :
    ∀ (ts : List DTask) (acc : PyNum), (∀ t ∈ ts, (taskCost t).isOk = true) →
      ∃ q, getTotalCostAux acc ts = .ok q := by
  intro ts
  induction ts with
  | nil => intro acc _; exact ⟨acc, rfl⟩
  | cons t ts ih =>
    intro acc h
    have ht := h t (List.mem_cons_self _ _)
    have hrest : ∀ u ∈ ts, (taskCost u).isOk = true :=
      fun u hu => h u (List.mem_cons_of_mem _ hu)
    rw [getTotalCostAux]
    cases htc : taskCost t with
    | error e => rw [htc] at ht; simp [Except.isOk, Except.toBool] at ht
    | ok c =>
      cases c with
      | none => exact ih acc hrest
      | some q => exact ih (acc.add (.pfloat q)) hrest

/-- C10: cost computation is partial — "Fee £TBD" and a bare "£" token
make `float` raise `ValueError` — and total under the precondition that
every task's first £-prefixed token has a parseable decimal remainder. -/
theorem c10_cost_partiality :
    getTotalCost [mkTask "t1" "Fee £TBD" none false false] =
      .error (.valueError "could not convert string to float".toList)
    ∧ getTotalCost [mkTask "t2" "Pay £ now" none false false] =
      .error (.valueError "could not convert string to float".toList)
    ∧ ∀ ts : List DTask, (∀ t ∈ ts, (taskCost t).isOk = true) →
        ∃ q, getTotalCost ts = .ok q := by
  refine ⟨by decide, by decide, ?_⟩
  intro ts h
  exact getTotalCostAux_total ts (.pint 0) h

/-- Witness for the totality clause of C10 on a parseable task. -/
theorem c10_cost_partiality_witness :
    (∀ t ∈ [mkTask "t9" "Gym £30" none false false], (taskCost t).isOk = true) ∧
    ∃ q, getTotalCost [mkTask "t9" "Gym £30" none false false] = .ok q :=
  ⟨by decide, c10_cost_partiality.2.2 _ (by decide)⟩

theorem titlesAux_complete (now : Date) (secs : List DSection) (tasks : List DTask)
    (s : DSection) (title : Str) (ht : expectedTitle now secs tasks s = .ok title)
    (hne : title ≠ s.name) :
    ∀ (rest : List DSection) (gen gen' : Nat) (cmds : List Cmd),
      setSectionTitlesAux now secs tasks gen rest = .ok (gen', cmds) →
      s ∈ rest → ∃ u, Cmd.sectionUpdate u s.id title ∈ cmds := by
  intro rest
  induction rest with
  | nil => intro gen gen' cmds _ hs; simp at hs
  | cons a rest ih =>
    intro gen gen' cmds hrun hs
    simp only [setSectionTitlesAux] at hrun
    cases hta : expectedTitle now secs tasks a with
    | error e => rw [hta] at hrun; simp at hrun
    | ok ta =>
      rw [hta] at hrun
      dsimp only at hrun
      rcases List.mem_cons.mp hs with rfl | hs'
      · have hteq : ta = title := by
          rw [ht] at hta
          exact (Except.ok.inj hta).symm
        subst hteq
        rw [if_pos hne] at hrun
        cases hrec : setSectionTitlesAux now secs tasks (gen + 1) rest with
        | error e => rw [hrec] at hrun; simp at hrun
        | ok p =>
          rw [hrec] at hrun
          simp only [Except.ok.injEq] at hrun
          obtain ⟨-, rfl⟩ := hrun
          exact ⟨uuid gen, List.mem_cons_self _ _⟩
      · by_cases hta' : ta ≠ a.name
        · rw [if_pos hta'] at hrun
          cases hrec : setSectionTitlesAux now secs tasks (gen + 1) rest with
          | error e => rw [hrec] at hrun; simp at hrun
          | ok p =>
            rw [hrec] at hrun
            simp only [Except.ok.injEq] at hrun
            obtain ⟨-, rfl⟩ := hrun
            obtain ⟨u, hu⟩ := ih (gen + 1) p.1 p.2 (by rw [hrec]) hs'
            exact ⟨u, List.mem_cons_of_mem _ hu⟩
        · rw [if_neg hta'] at hrun
          exact ih gen gen' cmds hrun hs'

theorem titlesAux_sound (now : Date) (secs : List DSection) (tasks : List DTask) :
    ∀ (rest : List DSection) (gen gen' : Nat) (cmds : List Cmd),
      setSectionTitlesAux now secs tasks gen rest = .ok (gen', cmds) →
      ∀ u sid nm, Cmd.sectionUpdate u sid nm ∈ cmds →
        ∃ s', s' ∈ rest ∧ s'.id = sid ∧
          expectedTitle now secs tasks s' = .ok nm ∧ nm ≠ s'.name := by
  intro rest
  induction rest with
  | nil =>
    intro gen gen' cmds hrun u sid nm hu
    simp only [setSectionTitlesAux, Except.ok.injEq] at hrun
    obtain ⟨-, rfl⟩ := hrun
    simp at hu
  | cons a rest ih =>
    intro gen gen' cmds hrun u sid nm hu
    simp only [setSectionTitlesAux] at hrun
    cases hta : expectedTitle now secs tasks a with
    | error e => rw [hta] at hrun; simp at hrun
    | ok ta =>
      rw [hta] at hrun
      dsimp only at hrun
      by_cases hta' : ta ≠ a.name
      · rw [if_pos hta'] at hrun
        cases hrec : setSectionTitlesAux now secs tasks (gen + 1) rest with
        | error e => rw [hrec] at hrun; simp at hrun
        | ok p =>
          rw [hrec] at hrun
          simp only [Except.ok.injEq] at hrun
          obtain ⟨-, rfl⟩ := hrun
          rcases List.mem_cons.mp hu with heq | hu'
          · cases heq
            exact ⟨a, List.mem_cons_self _ _, rfl, hta, hta'⟩
          · obtain ⟨s', hs', rest'⟩ := ih (gen + 1) p.1 p.2 (by rw [hrec]) u sid nm hu'
            exact ⟨s', List.mem_cons_of_mem _ hs', rest'⟩
      · rw [if_neg hta'] at hrun
        obtain ⟨s', hs', rest'⟩ := ih gen gen' cmds hrun u sid nm hu
        exact ⟨s', List.mem_cons_of_mem _ hs', rest'⟩


/-- C7 counterexample: for the current-month section "March 2025 misc"
with a £550 task (cost above MONTHLY_BUDGET), the expected title actually
used for the rename comparison is the "!!!"-marker form, not the
parenthesised form the claim states unconditionally. -/
theorem c7_overspend_title_counterexample :
    setSectionTitles ⟨3, 2025⟩ 0 [mkSection "s1" "March 2025 misc"]
      [mkTask "t1" "£550" (some "s1") false false] =
      .ok (1, [Cmd.sectionUpdate (uuid 0) "s1".toList
        "March 2025 !!! £550.0 / £500 !!!".toList])
    ∧ "March 2025 !!! £550.0 / £500 !!!".toList ≠
      "March 2025 (£550.0 / £500)".toList := by decide

/-- C7 amended: as the claim states, but with the overspend-marker
exception — for every section of the working set, a Backlog-prefixed name
yields the literal title "Backlog"; otherwise the title is the first two
whitespace-separated words of the current name followed by
" (£cost / £MONTHLY_BUDGET)" computed over all tasks of the section
regardless of completion or deletion, except when the section is the
current-month section and its cost exceeds the budget (then the marker
form of C8 is used); a rename intent is emitted for the section if and
only if the expected title differs from its current name. -/
theorem c7_amended_titles (now : Date) (sections : List DSection) (tasks : List DTask)
    (hnd : (sections.map DSection.id).Nodup) (gen gen' : Nat) (cmds : List Cmd)
    (hrun : setSectionTitles now gen sections tasks = .ok (gen', cmds))
    (s : DSection) (hs : s ∈ sections) (title : Str)
    (ht : expectedTitle now sections tasks s = .ok title) :
    ((∃ u, Cmd.sectionUpdate u s.id title ∈ cmds) ↔ title ≠ s.name)
    ∧ ("Backlog".toList.isPrefixOf s.name = true → title = "Backlog".toList)
    ∧ ("Backlog".toList.isPrefixOf s.name = false →
        ∃ cost, getTotalCost (tasks.filter fun t => t.section_id == some s.id) = .ok cost ∧
          (¬ (currentSectionId now sections = some s.id ∧
              mkRat MONTHLY_BUDGET 1 < cost.toRat) →
            title = firstTwoWords s.name ++ " (£".toList ++ cost.render ++
              " / £".toList ++ intRepr MONTHLY_BUDGET ++ ")".toList)) := by
  refine ⟨⟨?_, ?_⟩, ?_, ?_⟩
  · rintro ⟨u, hu⟩
    obtain ⟨s', hs', hid, ht', hne'⟩ :=
      titlesAux_sound now sections tasks sections gen gen' cmds hrun u s.id title hu
    have hseq : s' = s := List.inj_on_of_nodup_map hnd hs' hs hid
    subst hseq
    exact hne'
  · intro hne
    exact titlesAux_complete now sections tasks s title ht hne sections gen gen' cmds hrun hs
  · intro hb
    rw [expectedTitle, if_pos hb] at ht
    exact (Except.ok.inj ht).symm
  · intro hb
    rw [expectedTitle, if_neg (by rw [hb]; exact Bool.false_ne_true)] at ht
    cases hc : getTotalCost (tasks.filter fun t => t.section_id == some s.id) with
    | error e => rw [hc] at ht; simp at ht
    | ok cost =>
      rw [hc] at ht
      dsimp only at ht
      refine ⟨cost, rfl, ?_⟩
      intro hnc
      rw [if_neg hnc] at ht
      exact (Except.ok.inj ht).symm

/-- Witness for the amended C7 on a one-section snapshot. -/
theorem c7_amended_titles_witness :
    (([mkSection "s1" "April 2025 x"].map DSection.id).Nodup ∧
     setSectionTitles ⟨3, 2025⟩ 0 [mkSection "s1" "April 2025 x"]
       [mkTask "t1" "£3.50 thing" (some "s1") false false] =
       .ok (1, [Cmd.sectionUpdate (uuid 0) "s1".toList
         "April 2025 (£3.5 / £500)".toList]) ∧
     mkSection "s1" "April 2025 x" ∈ [mkSection "s1" "April 2025 x"] ∧
     expectedTitle ⟨3, 2025⟩ [mkSection "s1" "April 2025 x"]
       [mkTask "t1" "£3.50 thing" (some "s1") false false]
       (mkSection "s1" "April 2025 x") = .ok "April 2025 (£3.5 / £500)".toList) ∧
    (((∃ u, Cmd.sectionUpdate u (mkSection "s1" "April 2025 x").id
        "April 2025 (£3.5 / £500)".toList ∈
        [Cmd.sectionUpdate (uuid 0) "s1".toList "April 2025 (£3.5 / £500)".toList]) ↔
      "April 2025 (£3.5 / £500)".toList ≠ (mkSection "s1" "April 2025 x").name)
    ∧ ("Backlog".toList.isPrefixOf (mkSection "s1" "April 2025 x").name = true →
        "April 2025 (£3.5 / £500)".toList = "Backlog".toList)
    ∧ ("Backlog".toList.isPrefixOf (mkSection "s1" "April 2025 x").name = false →
        ∃ cost, getTotalCost ([mkTask "t1" "£3.50 thing" (some "s1") false false].filter
            fun t => t.section_id == some (mkSection "s1" "April 2025 x").id) =
            .ok cost ∧
          (¬ (currentSectionId ⟨3, 2025⟩ [mkSection "s1" "April 2025 x"] =
                some (mkSection "s1" "April 2025 x").id ∧
              mkRat MONTHLY_BUDGET 1 < cost.toRat) →
            "April 2025 (£3.5 / £500)".toList =
              firstTwoWords (mkSection "s1" "April 2025 x").name ++ " (£".toList ++
                cost.render ++ " / £".toList ++ intRepr MONTHLY_BUDGET ++ ")".toList))) :=
  ⟨⟨by decide, by decide, by decide, by decide⟩,
    c7_amended_titles ⟨3, 2025⟩ _ _ (by decide) 0 1 _ (by decide) _ (by decide) _ (by decide)⟩


theorem pyReplace_append (a b : Str) (o : Char) (r : Str) :
    pyReplace (a ++ b) o r = pyReplace a o r ++ pyReplace b o r := by
  induction a with
  | nil => rfl
  | cons c cs ih => simp [pyReplace, ih, List.append_assoc]

theorem pyReplace_of_not_mem {l : Str} {o : Char} (r : Str) (h : o ∉ l) :
    pyReplace l o r = l := by
  induction l with
  | nil => rfl
  | cons c cs ih =>
    rw [pyReplace, if_neg (by intro hco; exact h (by rw [← hco]; exact List.mem_cons_self c cs))]
    rw [ih (fun hm => h (List.mem_cons_of_mem _ hm))]
    rfl

/-- C8: a section whose id is the current-month section's id and whose
cost exceeds MONTHLY_BUDGET gets the expected title with "!!! " and
" !!!" in place of the "(" and ")" delimiters, while a section that is
not the current-month section never gets the markers, even over budget
(the parenthesis-freeness hypotheses pin down the replace-all to the two
delimiters, which is what the claim describes). -/
theorem c8_overspend_marker (now : Date) (sections : List DSection) (tasks : List DTask)
    (s : DSection) (cost : PyNum)
    (hb : "Backlog".toList.isPrefixOf s.name = false)
    (hc : getTotalCost (tasks.filter fun t => t.section_id == some s.id) = .ok cost)
    (hw1 : '(' ∉ firstTwoWords s.name) (hw2 : ')' ∉ firstTwoWords s.name)
    (hr1 : '(' ∉ cost.render) (hr2 : ')' ∉ cost.render) :
    (currentSectionId now sections = some s.id ∧ mkRat MONTHLY_BUDGET 1 < cost.toRat →
      expectedTitle now sections tasks s =
        .ok (firstTwoWords s.name ++ " !!! £".toList ++ cost.render ++
          " / £".toList ++ intRepr MONTHLY_BUDGET ++ " !!!".toList))
    ∧ (¬ currentSectionId now sections = some s.id →
      expectedTitle now sections tasks s =
        .ok (firstTwoWords s.name ++ " (£".toList ++ cost.render ++
          " / £".toList ++ intRepr MONTHLY_BUDGET ++ ")".toList)) := by
  have h500 : intRepr MONTHLY_BUDGET = "500".toList := by decide
  constructor
  · intro hcond
    rw [expectedTitle, if_neg (by rw [hb]; exact Bool.false_ne_true), hc]
    dsimp only
    rw [if_pos hcond]
    have e1 : pyReplace (firstTwoWords s.name ++ " (£".toList ++ cost.render ++
        " / £".toList ++ intRepr MONTHLY_BUDGET ++ ")".toList) '(' "!!! ".toList =
        firstTwoWords s.name ++ " !!! £".toList ++ cost.render ++
        " / £".toList ++ intRepr MONTHLY_BUDGET ++ ")".toList := by
      rw [h500, pyReplace_append, pyReplace_append, pyReplace_append, pyReplace_append,
        pyReplace_append, pyReplace_of_not_mem _ hw1, pyReplace_of_not_mem _ hr1]
      have hA : pyReplace " (£".toList '(' "!!! ".toList = " !!! £".toList := by decide
      have hB : pyReplace " / £".toList '(' "!!! ".toList = " / £".toList := by decide
      have hF : pyReplace "500".toList '(' "!!! ".toList = "500".toList := by decide
      have hP : pyReplace ")".toList '(' "!!! ".toList = ")".toList := by decide
      rw [hA, hB, hF, hP]
    have e2 : pyReplace (firstTwoWords s.name ++ " !!! £".toList ++ cost.render ++
        " / £".toList ++ intRepr MONTHLY_BUDGET ++ ")".toList) ')' " !!!".toList =
        firstTwoWords s.name ++ " !!! £".toList ++ cost.render ++
        " / £".toList ++ intRepr MONTHLY_BUDGET ++ " !!!".toList := by
      rw [h500, pyReplace_append, pyReplace_append, pyReplace_append, pyReplace_append,
        pyReplace_append, pyReplace_of_not_mem _ hw2, pyReplace_of_not_mem _ hr2]
      have hA : pyReplace " !!! £".toList ')' " !!!".toList = " !!! £".toList := by decide
      have hB : pyReplace " / £".toList ')' " !!!".toList = " / £".toList := by decide
      have hF : pyReplace "500".toList ')' " !!!".toList = "500".toList := by decide
      have hP : pyReplace ")".toList ')' " !!!".toList = " !!!".toList := by decide
      rw [hA, hB, hF, hP]
    rw [e1, e2]
  · intro hnc
    rw [expectedTitle, if_neg (by rw [hb]; exact Bool.false_ne_true), hc]
    dsimp only
    rw [if_neg (fun hand => hnc hand.1)]


/-- Witness for C8 at the spec's reference scenario: current-month
section with cost 550 against budget 500. -/
theorem c8_overspend_marker_witness :
    ("Backlog".toList.isPrefixOf (mkSection "s1" "March 2025 misc").name = false ∧
     getTotalCost ([mkTask "t1" "£550" (some "s1") false false].filter
       fun t => t.section_id == some (mkSection "s1" "March 2025 misc").id) =
       .ok (.pfloat (mkRat 550 1)) ∧
     '(' ∉ firstTwoWords (mkSection "s1" "March 2025 misc").name ∧
     ')' ∉ firstTwoWords (mkSection "s1" "March 2025 misc").name ∧
     '(' ∉ (PyNum.pfloat (mkRat 550 1)).render ∧
     ')' ∉ (PyNum.pfloat (mkRat 550 1)).render) ∧
    ((currentSectionId ⟨3, 2025⟩ [mkSection "s1" "March 2025 misc"] =
        some (mkSection "s1" "March 2025 misc").id ∧
      mkRat MONTHLY_BUDGET 1 < (PyNum.pfloat (mkRat 550 1)).toRat →
      expectedTitle ⟨3, 2025⟩ [mkSection "s1" "March 2025 misc"]
        [mkTask "t1" "£550" (some "s1") false false] (mkSection "s1" "March 2025 misc") =
        .ok (firstTwoWords (mkSection "s1" "March 2025 misc").name ++ " !!! £".toList ++
          (PyNum.pfloat (mkRat 550 1)).render ++
          " / £".toList ++ intRepr MONTHLY_BUDGET ++ " !!!".toList))
    ∧ (¬ currentSectionId ⟨3, 2025⟩ [mkSection "s1" "March 2025 misc"] =
        some (mkSection "s1" "March 2025 misc").id →
      expectedTitle ⟨3, 2025⟩ [mkSection "s1" "March 2025 misc"]
        [mkTask "t1" "£550" (some "s1") false false] (mkSection "s1" "March 2025 misc") =
        .ok (firstTwoWords (mkSection "s1" "March 2025 misc").name ++ " (£".toList ++
          (PyNum.pfloat (mkRat 550 1)).render ++
          " / £".toList ++ intRepr MONTHLY_BUDGET ++ ")".toList))) :=
  ⟨⟨by decide, by decide, by decide, by decide, by decide, by decide⟩,
    c8_overspend_marker ⟨3, 2025⟩ _ _ _ _ (by decide) (by decide) (by decide) (by decide)
      (by decide) (by decide)⟩

end Doshmon
